import Mathlib

/-!
Shallow embedding of the DeviceControllerCLI load-test engine:
the device lifecycle actor (src/device/device.go), the workload
distributor (src/providers/stops.go) and the orchestrator / stats
aggregator (src/runner/runner.go), together with proofs of the
spec's testable properties.
-/

namespace LoadTest

/-- Lifecycle stage of a MockDevice (src/device/device.go, `State`). -/
inductive DState where
  | init
  | registering
  | authenticating
  | linking
  | configuring
  | active
  | error
  | done
deriving DecidableEq, Repr

/-- Event types emitted by devices to the runner
(src/device/device.go, `EventType`). -/
inductive EventType where
  | eventActive
  | eventError
  | eventDone
  | eventMQTT
deriving DecidableEq, Repr

/-- The ordered step names of `MockDevice.Run`
(src/device/device.go lines 134-146). -/
def stepNames : List String :=
  ["register device", "register user", "login", "link device",
   "set config", "get config", "connect mqtt", "subscribe mqtt"]

/-- The intermediate lifecycle state a step function assigns on entry
(src/device/http.go: registerDevice sets Registering, login sets
Authenticating, linkDevice sets Linking, setConfig sets Configuring;
the other steps assign no state). -/
def stepEnterState (i : Nat) : Option DState :=
  if i = 0 then some .registering
  else if i = 2 then some .authenticating
  else if i = 3 then some .linking
  else if i = 4 then some .configuring
  else none

/-- Observable outcome of one complete execution of `MockDevice.Run`:
the final state, the recorded error text, the events sent on the event
channel in order, the lifecycle states assigned in order, how many step
functions were invoked, and which cleanup collaborator calls ran. -/
structure RunResult where
  final : DState
  errorMsg : Option String
  events : List EventType
  visited : List DState
  stepsStarted : Nat
  logoutInvoked : Bool
  logoutFailed : Bool
  disconnectInvoked : Bool
  offlinePublished : Bool
deriving DecidableEq, Repr

/-- Accumulator threaded through the step loop of `Run`. -/
structure RunAcc where
  events : List EventType
  visited : List DState
  stepsStarted : Nat
deriving DecidableEq, Repr

/-- Effect of invoking step `i`: the step function assigns its entry
state and performs one collaborator call. -/
def stepState (acc : RunAcc) (i : Nat) : RunAcc :=
  { acc with
    visited := acc.visited ++ (stepEnterState i).toList
    stepsStarted := acc.stepsStarted + 1 }

/-- Outcome when the stop channel is observed closed at the check before
a step: `d.setState(StateDone)` and return — no event, no cleanup
(src/device/device.go lines 149-154). -/
def cancelResult (acc : RunAcc) : RunResult :=
  { final := .done
    errorMsg := none
    events := acc.events
    visited := acc.visited ++ [.done]
    stepsStarted := acc.stepsStarted
    logoutInvoked := false
    logoutFailed := false
    disconnectInvoked := false
    offlinePublished := false }

/-- Outcome when step `i` returns an error `msg`:
`d.setError(fmt.Sprintf("%s: %v", step.name, err))`, one EventError on
the channel, and return (src/device/device.go lines 155-159). -/
def failResult (acc : RunAcc) (i : Nat) (msg : String) : RunResult :=
  { final := .error
    errorMsg := some ((stepNames.getD i "") ++ ": " ++ msg)
    events := acc.events ++ [.eventError]
    visited := acc.visited ++ [.error]
    stepsStarted := acc.stepsStarted
    logoutInvoked := false
    logoutFailed := false
    disconnectInvoked := false
    offlinePublished := false }

/-- Outcome when all steps succeed: the device goes Active, emits
EventActive, blocks on the stop channel, then runs `cleanup`: logout
(error discarded), mqtt disconnect (which publishes a final "offline"
presence message when the client is still connected), sets Done and
emits EventDone (src/device/device.go lines 162-169 and 258-263;
mqtt disconnect in src/unnamed/part_001 lines 79-84).
`logoutFails` is the discarded logout error outcome; `mqttConnected`
is whether the broker client is still connected at disconnect time. -/
def activeResult (acc : RunAcc) (logoutFails mqttConnected : Bool) : RunResult :=
  { final := .done
    errorMsg := none
    events := acc.events ++ [.eventActive, .eventDone]
    visited := acc.visited ++ [.active, .done]
    stepsStarted := acc.stepsStarted
    logoutInvoked := true
    logoutFailed := logoutFails
    disconnectInvoked := true
    offlinePublished := mqttConnected }

/-- The step loop of `MockDevice.Run` (src/device/device.go lines
148-170). `stepRes i` is the outcome of step `i`'s collaborator call
(`none` = success); `cancelAt` is the first check index at which the
closed stop channel is observed (8 or more means the cancellation
signal fires only after all steps, i.e. while Active). -/
def runLoop (stepRes : Nat → Option String) (cancelAt : Nat)
    (logoutFails mqttConnected : Bool) (i : Nat) (acc : RunAcc) : RunResult :=
  if _h : i < 8 then
    if cancelAt ≤ i then cancelResult acc
    else
      match stepRes i with
      | some msg => failResult (stepState acc i) i msg
      | none => runLoop stepRes cancelAt logoutFails mqttConnected (i + 1) (stepState acc i)
  else activeResult acc logoutFails mqttConnected
termination_by 8 - i

/-- One complete execution of `MockDevice.Run` starting from a freshly
created device (state Init, empty logs). -/
def run (stepRes : Nat → Option String) (cancelAt : Nat)
    (logoutFails mqttConnected : Bool) : RunResult :=
  runLoop stepRes cancelAt logoutFails mqttConnected 0 ⟨[], [.init], 0⟩

/-- Event handling of the stats aggregator
(src/runner/runner.go lines 178-188): EventActive increments the active
count, EventError increments the error count, EventDone decrements the
active count only when it is positive; the switch has no case for
EventMQTT, so it leaves the counters unchanged. State is
(active count, error count), both `atomic.Int64` in the source. -/
def statsStep (s : Int × Int) (ev : EventType) : Int × Int :=
  match ev with
  | .eventActive => (s.1 + 1, s.2)
  | .eventError => (s.1, s.2 + 1)
  | .eventDone => (if 0 < s.1 then s.1 - 1 else s.1, s.2)
  | .eventMQTT => s

/-- Aggregator counters after processing a finite event sequence,
starting from the zero-initialised `Stats`. -/
def statsAfter (evs : List EventType) : Int × Int :=
  evs.foldl statsStep (0, 0)

/-- Active-device count after processing a finite event sequence. -/
def activeAfter (evs : List EventType) : Int :=
  (statsAfter evs).1

/-- One tick of the rolling-rate sampler
(src/runner/runner.go lines 200-203): the per-tick message delta is
stored at slot `windowIdx % 5` of the fixed 5-slot window and the index
advances. State is (window contents, windowIdx). -/
def windowStep (s : List Int × Nat) (delta : Int) : List Int × Nat :=
  (s.1.set (s.2 % 5) delta, s.2 + 1)

/-- Window state after `deltas.length` ticks, starting from the
zero-initialised `Stats.mqttWindow` and `windowIdx = 0`. -/
def windowAfter (deltas : List Int) : List Int × Nat :=
  deltas.foldl windowStep (List.replicate 5 0, 0)

/-- `Stats.MsgsPerSec` (src/runner/runner.go lines 44-52): the sum of
the 5-slot window divided by 5, after the given per-tick deltas.
The source divides in float64; the exact rational value is modelled. -/
def msgsPerSec (deltas : List Int) : ℚ :=
  ((windowAfter deltas).1.sum : ℚ) / 5

/-- One sequential call of the stop-channel close pattern shared by
`MockDevice.Shutdown` (src/device/device.go lines 173-179) and
`Runner.Shutdown` (src/runner/runner.go lines 116-120): if the channel
is already closed do nothing, otherwise close it; closing an already
closed channel would panic. State is (channel closed, panicked). -/
def shutdownCall (s : Bool × Bool) : Bool × Bool :=
  if s.1 then s else (true, s.2)

/-- `Runner.Shutdown` (src/runner/runner.go lines 115-124): close the
runner's StopCh if not yet closed, then call Shutdown on every device.
State is ((runner StopCh closed, panicked), per-device stopCh closed). -/
def runnerShutdown (s : (Bool × Bool) × List Bool) : (Bool × Bool) × List Bool :=
  (shutdownCall s.1, s.2.map (fun c => if c then c else true))

/-- A micro-operation of one thread executing the Shutdown body: the
select first observes whether the channel is closed (`check`), and only
then, if it observed it open, performs the close (`close`). `t` names
the thread. -/
inductive MicroOp where
  | check (t : Bool)
  | close (t : Bool)
deriving DecidableEq, Repr

/-- Interleaved state of two threads concurrently calling Shutdown on
the same channel: the channel flag, the panic flag, and what each
thread's select observed (none before its check ran). -/
structure ConcState where
  closed : Bool
  panicked : Bool
  saw1 : Option Bool
  saw2 : Option Bool
deriving DecidableEq, Repr

/-- Small-step semantics of the two-thread Shutdown race: `check t`
atomically reads the channel flag (the select's readiness poll);
`close t` runs the default branch taken earlier — it closes the channel
if thread `t` observed it open, and panics if the channel was closed in
between by the other thread. -/
def concStep (s : ConcState) : MicroOp → ConcState
  | .check true => { s with saw1 := some s.closed }
  | .check false => { s with saw2 := some s.closed }
  | .close true =>
      if s.saw1 = some false then
        if s.closed then { s with panicked := true }
        else { s with closed := true }
      else s
  | .close false =>
      if s.saw2 = some false then
        if s.closed then { s with panicked := true }
        else { s with closed := true }
      else s

/-- Execute a schedule (an interleaving of the two threads' micro-ops)
from a given state. -/
def concRun (sched : List MicroOp) (s : ConcState) : ConcState :=
  sched.foldl concStep s

/-- A ConcState with the channel open and neither thread started. -/
def concInit : ConcState :=
  { closed := false, panicked := false, saw1 := none, saw2 := none }

/-- A single transit stop assignment (src/providers/stops.go, `Stop`). -/
structure Stop where
  provider : String
  providerID : String
  line : String
  stopID : String
  direction : String
deriving DecidableEq, Repr

/-- The curated stop lists per provider
(src/providers/stops.go, `stopsByProvider`), as an association list;
the Go map is keyed by the same four provider strings. -/
def stopsByProvider : List (String × List Stop) :=
  [("mta",
    [⟨"mta", "mta-subway", "A", "A19N", ""⟩,
     ⟨"mta", "mta-subway", "A", "A19S", ""⟩,
     ⟨"mta", "mta-subway", "L", "L03N", ""⟩,
     ⟨"mta", "mta-subway", "L", "L03S", ""⟩,
     ⟨"mta", "mta-subway", "1", "127N", ""⟩,
     ⟨"mta", "mta-subway", "1", "127S", ""⟩,
     ⟨"mta", "mta-subway", "N", "N02N", ""⟩,
     ⟨"mta", "mta-subway", "N", "N02S", ""⟩]),
   ("cta",
    [⟨"cta", "cta-subway", "Red", "40900", "N"⟩,
     ⟨"cta", "cta-subway", "Red", "40900", "S"⟩,
     ⟨"cta", "cta-subway", "Blue", "40380", "S"⟩,
     ⟨"cta", "cta-subway", "Blue", "40380", "N"⟩,
     ⟨"cta", "cta-subway", "Brn", "40730", "N"⟩,
     ⟨"cta", "cta-subway", "Brn", "40730", "S"⟩,
     ⟨"cta", "cta-subway", "G", "40280", "S"⟩,
     ⟨"cta", "cta-subway", "G", "40280", "N"⟩]),
   ("mbta",
    [⟨"mbta", "mbta", "Red", "place-pktrm", "1"⟩,
     ⟨"mbta", "mbta", "Red", "place-pktrm", "0"⟩,
     ⟨"mbta", "mbta", "Orange", "place-dwnxg", "0"⟩,
     ⟨"mbta", "mbta", "Orange", "place-dwnxg", "1"⟩,
     ⟨"mbta", "mbta", "Green-B", "place-kenmore", "0"⟩,
     ⟨"mbta", "mbta", "Green-B", "place-kenmore", "1"⟩]),
   ("septa",
    [⟨"septa", "septa-rail", "NHSL", "PENN_CENTER", "N"⟩,
     ⟨"septa", "septa-rail", "NHSL", "PENN_CENTER", "S"⟩,
     ⟨"septa", "septa-rail", "PAOLI", "30TH_STREET", "E"⟩,
     ⟨"septa", "septa-rail", "PAOLI", "30TH_STREET", "W"⟩])]

/-- `PickStop` (src/providers/stops.go lines 53-59): look the provider
up; fail when it is unknown or its list is empty, otherwise return a
random stop of the list. `rand.Intn(len)` is modelled by
`choice % len`, which ranges over exactly the same indices. -/
def pickStop (provider : String) (choice : Nat) : Option Stop :=
  match stopsByProvider.lookup provider with
  | none => none
  | some stops =>
    if stops.length = 0 then none
    else some (stops.getD (choice % stops.length) ⟨"", "", "", "", ""⟩)

/-- The weighted-list build of `AssignProviders`
(src/providers/stops.go lines 75-81): each map entry contributes
`pct * n / 100` copies of its key. `dist` is the Go map as an
association list in iteration order; per-entry counts do not depend on
that order. -/
def assignWeighted (n : Nat) (dist : List (String × Nat)) : List String :=
  dist.flatMap (fun e => List.replicate (e.2 * n / 100) e.1)

/-- One pass of the remainder-filling inner loop
(src/providers/stops.go lines 84-89): append each provider key in turn
and break as soon as the list reaches length `n`. -/
def fillPass (n : Nat) (provs : List String) (w : List String) : List String :=
  match provs with
  | [] => w
  | p :: rest =>
      if n ≤ (w ++ [p]).length then w ++ [p] else fillPass n rest (w ++ [p])

/-- The remainder-filling outer loop (src/providers/stops.go lines
83-90): repeat passes while the list is shorter than `n`. The Go loop
never terminates when the map is empty and `n > 0`; here `fuel = n`
passes are enough whenever the map is non-empty, which the callers'
sum-to-100 contract guarantees. -/
def fillLoop (fuel n : Nat) (provs : List String) (w : List String) : List String :=
  match fuel with
  | 0 => w
  | Nat.succ f => if w.length < n then fillLoop f n provs (fillPass n provs w) else w

/-- `AssignProviders` (src/providers/stops.go lines 72-95) before the
final shuffle: weighted build, remainder fill, trim to `n`. The
concluding `rand.Shuffle` is an arbitrary permutation of this list, so
theorems quantify over any permutation of this value. -/
def assignProvidersCore (n : Nat) (dist : List (String × Nat)) : List String :=
  (fillLoop n n (dist.map Prod.fst) (assignWeighted n dist)).take n

/-- The device-construction loop of `Runner.New`
(src/runner/runner.go lines 80-97): walk the provider assignments in
order, pick a stop for each, and fail with a configuration error at the
first key `PickStop` rejects. `choice i` supplies the random index used
for device `i`. -/
def runnerNewStops (choice : Nat → Nat) : List String → Nat → Except String (List Stop)
  | [], _ => Except.ok []
  | k :: rest, i =>
    match pickStop k (choice i) with
    | none => Except.error ("no stops configured for provider \"" ++ k ++ "\"")
    | some s =>
      match runnerNewStops choice rest (i + 1) with
      | Except.error e => Except.error e
      | Except.ok l => Except.ok (s :: l)

/-! ### Stats aggregator: the active count is an invariant of the event fold -/

theorem foldl_statsStep_fst_nonneg (evs : List EventType) :
    ∀ s : Int × Int, 0 ≤ s.1 → 0 ≤ (evs.foldl statsStep s).1 := by
  induction evs with
  | nil => intro s hs; simpa using hs
  | cons ev rest ih =>
    intro s hs
    rw [List.foldl_cons]
    refine ih _ ?_
    cases ev with
    | eventActive => simp [statsStep]; omega
    | eventError => simpa [statsStep] using hs
    | eventDone => simp [statsStep]; split <;> omega
    | eventMQTT => simpa [statsStep] using hs

/-- C5: for every finite sequence of lifecycle events, in any interleaving
across devices, the aggregator's active-device count is never negative,
and a became-done event arriving when the count is zero leaves it at
zero. -/
theorem active_count_never_negative (evs : List EventType) :
    0 ≤ activeAfter evs ∧
    (activeAfter evs = 0 → activeAfter (evs ++ [EventType.eventDone]) = 0) := by
  constructor
  · exact foldl_statsStep_fst_nonneg evs (0, 0) le_rfl
  · intro h0
    unfold activeAfter statsAfter at h0 ⊢
    rw [List.foldl_append, List.foldl_cons, List.foldl_nil]
    have hdone : ∀ s : Int × Int, s.1 = 0 →
        (statsStep s EventType.eventDone).1 = 0 := by
      intro s hs; simp [statsStep, hs]
    exact hdone _ h0

/-- C5 witness: a became-done event with no preceding became-active leaves
the active count at zero rather than driving it negative. -/
theorem active_count_never_negative_witness :
    0 ≤ activeAfter [EventType.eventDone] ∧
    activeAfter ([EventType.eventDone] ++ [EventType.eventDone]) = 0 := by
  have h := active_count_never_negative [EventType.eventDone]
  exact ⟨h.1, h.2 (by decide)⟩

/-! ### Shutdown: sequential idempotence holds, concurrent safety does not -/

/-- C3 counterexample: two concurrent Shutdown calls can interleave the
select's closed-check and the close so that both threads observe the
channel open and both close it — a double-close panic — whereas the
fully sequential schedule of the same two calls never panics. The
select-then-close pattern of `MockDevice.Shutdown` and `Runner.Shutdown`
is not atomic. -/
theorem shutdown_concurrent_double_close :
    (concRun [MicroOp.check true, MicroOp.check false, MicroOp.close true,
      MicroOp.close false] concInit).panicked = true ∧
    (concRun [MicroOp.check true, MicroOp.close true, MicroOp.check false,
      MicroOp.close false] concInit).panicked = false := by decide

/-- C3 amended: calling Shutdown twice sequentially — on a device actor or
on the Runner — has the same observable effect on the cancellation
channels and device stop channels as calling it once, and never panics;
the guarantee does not extend to two fully concurrent calls. -/
theorem shutdown_sequential_idempotent (s : Bool × Bool)
    (r : (Bool × Bool) × List Bool) :
    shutdownCall (shutdownCall s) = shutdownCall s ∧
    (shutdownCall s).2 = s.2 ∧
    runnerShutdown (runnerShutdown r) = runnerShutdown r ∧
    (runnerShutdown r).1.2 = r.1.2 := by
  obtain ⟨c, p⟩ := s
  obtain ⟨⟨rc, rp⟩, devs⟩ := r
  have hff : ((fun c : Bool => if c then c else true) ∘
      fun c : Bool => if c then c else true) =
      fun c : Bool => if c then c else true := by
    funext c; cases c <;> rfl
  refine ⟨?_, ?_, ?_, ?_⟩
  · cases c <;> simp [shutdownCall]
  · cases c <;> simp [shutdownCall]
  · cases rc <;> simp [runnerShutdown, shutdownCall, List.map_map, hff]
  · cases rc <;> simp [runnerShutdown, shutdownCall]

/-! ### Device lifecycle: cancellation before the first step -/

/-- C7: a device whose cancellation signal is already set before it begins
any step transitions directly to Done and returns without invoking any
collaborator operation: no step function is started, no event is
emitted, and neither cleanup call runs. -/
theorem run_cancelled_before_first_step (stepRes : Nat → Option String)
    (cancelAt : Nat) (lf mc : Bool) (h : cancelAt = 0) :
    (run stepRes cancelAt lf mc).final = DState.done ∧
    (run stepRes cancelAt lf mc).stepsStarted = 0 ∧
    (run stepRes cancelAt lf mc).events = [] ∧
    (run stepRes cancelAt lf mc).logoutInvoked = false ∧
    (run stepRes cancelAt lf mc).disconnectInvoked = false := by
  subst h
  simp [run, runLoop, cancelResult]

/-- C7 witness at a concrete device whose stop channel is closed before
step one. -/
theorem run_cancelled_before_first_step_witness :
    (run (fun _ => none) 0 false false).final = DState.done ∧
    (run (fun _ => none) 0 false false).stepsStarted = 0 ∧
    (run (fun _ => none) 0 false false).events = [] ∧
    (run (fun _ => none) 0 false false).logoutInvoked = false ∧
    (run (fun _ => none) 0 false false).disconnectInvoked = false :=
  run_cancelled_before_first_step (fun _ => none) 0 false false rfl

/-! ### Runner construction fails on a bad provider key -/

theorem runnerNewStops_error_of_bad (choice : Nat → Nat) (k : String)
    (hbad : stopsByProvider.lookup k = none ∨
      stopsByProvider.lookup k = some []) :
    ∀ (ks : List String) (i : Nat), k ∈ ks →
      ∃ msg, runnerNewStops choice ks i = Except.error msg := by
  have hk : ∀ c, pickStop k c = none := by
    intro c
    rcases hbad with h | h <;> simp [pickStop, h]
  intro ks
  induction ks with
  | nil => intro i h; simp at h
  | cons q rest ih =>
    intro i hmem
    cases hpick : pickStop q (choice i) with
    | none =>
      exact ⟨"no stops configured for provider \"" ++ q ++ "\"",
        by simp [runnerNewStops, hpick]⟩
    | some s =>
      have hqk : q ≠ k := by
        intro he
        rw [he, hk (choice i)] at hpick
        exact Option.noConfusion hpick
      have hmem' : k ∈ rest := by
        rcases List.mem_cons.mp hmem with h | h
        · exact absurd h.symm hqk
        · exact h
      obtain ⟨msg, hmsg⟩ := ih (i + 1) hmem'
      exact ⟨msg, by simp [runnerNewStops, hpick, hmsg]⟩

/-- C8: whenever the distributor's assignment contains a category key
that is unknown to the curated catalog or whose stop list is empty, the
device-construction loop of `Runner.New` returns a configuration error —
construction fails before any device is started. -/
theorem runnerNew_fails_on_bad_category (choice : Nat → Nat)
    (ks : List String) (k : String) (hmem : k ∈ ks)
    (hbad : stopsByProvider.lookup k = none ∨
      stopsByProvider.lookup k = some []) :
    ∃ msg, runnerNewStops choice ks 0 = Except.error msg :=
  runnerNewStops_error_of_bad choice k hbad ks 0 hmem

/-- C8 witness: an assignment containing an unknown provider key makes
construction fail. -/
theorem runnerNew_fails_on_bad_category_witness :
    ∃ msg, runnerNewStops (fun _ => 0) ["mta", "bogus"] 0 =
      Except.error msg :=
  runnerNew_fails_on_bad_category (fun _ => 0) ["mta", "bogus"] "bogus"
    (by decide) (Or.inl (by decide))

/-! ### Workload distributor -/

theorem sum_map_div_le (l : List Nat) (c : Nat) :
    (l.map (fun a => a / c)).sum ≤ l.sum / c := by
  induction l with
  | nil => simp
  | cons a l ih =>
    simp only [List.map_cons, List.sum_cons]
    calc a / c + (l.map (fun a => a / c)).sum ≤ a / c + l.sum / c := by omega
      _ ≤ (a + l.sum) / c := Nat.add_div_le_add_div a l.sum c

theorem sum_map_div_eq (l : List Nat) (c : Nat) (h : ∀ a ∈ l, c ∣ a) :
    (l.map (fun a => a / c)).sum = l.sum / c := by
  induction l with
  | nil => simp
  | cons a l ih =>
    simp only [List.map_cons, List.sum_cons]
    rw [ih (fun b hb => h b (by simp [hb])),
      Nat.add_div_of_dvd_right (h a (by simp))]

theorem sum_map_mul_const (l : List (String × Nat)) (n : Nat) :
    (l.map (fun e => e.2 * n)).sum = (l.map Prod.snd).sum * n := by
  induction l with
  | nil => simp
  | cons e l ih => simp [ih, Nat.add_mul]

theorem length_assignWeighted (n : Nat) (dist : List (String × Nat)) :
    (assignWeighted n dist).length =
      ((dist.map (fun e => e.2 * n)).map (fun a => a / 100)).sum := by
  unfold assignWeighted
  rw [List.length_flatMap, List.map_map]
  congr 1
  apply List.map_congr_left
  intro e _
  simp

theorem assignWeighted_length_le (n : Nat) (dist : List (String × Nat))
    (hsum : (dist.map Prod.snd).sum = 100) :
    (assignWeighted n dist).length ≤ n := by
  rw [length_assignWeighted]
  calc ((dist.map (fun e => e.2 * n)).map (fun a => a / 100)).sum
      ≤ (dist.map (fun e => e.2 * n)).sum / 100 := sum_map_div_le _ 100
    _ = ((dist.map Prod.snd).sum * n) / 100 := by rw [sum_map_mul_const]
    _ = (100 * n) / 100 := by rw [hsum]
    _ = n := by omega

theorem mem_assignWeighted (n : Nat) (dist : List (String × Nat))
    (x : String) (h : x ∈ assignWeighted n dist) : x ∈ dist.map Prod.fst := by
  unfold assignWeighted at h
  rw [List.mem_flatMap] at h
  obtain ⟨e, he, hx⟩ := h
  have hxe := List.eq_of_mem_replicate hx
  subst hxe
  exact List.mem_map.mpr ⟨e, he, rfl⟩

theorem count_assignWeighted_zero (n : Nat) (dist : List (String × Nat))
    (p : String) (hp : p ∉ dist.map Prod.fst) :
    (assignWeighted n dist).count p = 0 := by
  rw [List.count_eq_zero]
  intro hmem
  exact hp (mem_assignWeighted n dist p hmem)

theorem count_assignWeighted (n : Nat) :
    ∀ (dist : List (String × Nat)) (p : String) (pct : Nat),
      (dist.map Prod.fst).Nodup → (p, pct) ∈ dist →
      (assignWeighted n dist).count p = pct * n / 100 := by
  intro dist
  induction dist with
  | nil => intro p pct _ h; simp at h
  | cons e rest ih =>
    intro p pct hnd hmem
    obtain ⟨q, qp⟩ := e
    have hnd1 : (q :: rest.map Prod.fst).Nodup := by
      simpa only [List.map_cons] using hnd
    rcases List.nodup_cons.mp hnd1 with ⟨hqf, hnd2⟩
    have hsplit : assignWeighted n ((q, qp) :: rest) =
        List.replicate (qp * n / 100) q ++ assignWeighted n rest := by
      unfold assignWeighted
      rw [List.flatMap_cons]
    rw [hsplit, List.count_append, List.count_replicate]
    rcases List.mem_cons.mp hmem with heq | hmem2
    · injection heq with h1 h2
      subst h1
      subst h2
      rw [count_assignWeighted_zero n rest _ hqf]
      simp
    · have hqp : q ≠ p := by
        intro h
        subst h
        exact hqf (List.mem_map.mpr ⟨(q, pct), hmem2, rfl⟩)
      rw [ih p pct hnd2 hmem2]
      simp [hqp]

theorem fillPass_eq_append (n : Nat) :
    ∀ (provs w : List String),
      ∃ ext, fillPass n provs w = w ++ ext ∧ ∀ x ∈ ext, x ∈ provs := by
  intro provs
  induction provs with
  | nil => intro w; exact ⟨[], by simp [fillPass], by simp⟩
  | cons p rest ih =>
    intro w
    simp only [fillPass]
    by_cases h : n ≤ (w ++ [p]).length
    · rw [if_pos h]
      exact ⟨[p], rfl, by simp⟩
    · rw [if_neg h]
      obtain ⟨ext, heq, hmem⟩ := ih (w ++ [p])
      refine ⟨p :: ext, ?_, ?_⟩
      · rw [heq]
        simp
      · intro x hx
        rcases List.mem_cons.mp hx with rfl | hx
        · simp
        · simp [hmem x hx]

theorem fillPass_length (n : Nat) :
    ∀ (provs w : List String), w.length < n →
      (fillPass n provs w).length = min n (w.length + provs.length) := by
  intro provs
  induction provs with
  | nil =>
    intro w h
    simp only [fillPass, List.length_nil]
    omega
  | cons p rest ih =>
    intro w h
    simp only [fillPass]
    by_cases h2 : n ≤ (w ++ [p]).length
    · rw [if_pos h2]
      simp only [List.length_append, List.length_cons, List.length_nil] at h2 ⊢
      omega
    · rw [if_neg h2]
      rw [ih (w ++ [p]) (by simp at h2 ⊢; omega)]
      simp only [List.length_append, List.length_cons, List.length_nil]
      omega

theorem fillLoop_eq_append (n : Nat) (provs : List String) :
    ∀ (fuel : Nat) (w : List String),
      ∃ ext, fillLoop fuel n provs w = w ++ ext ∧ ∀ x ∈ ext, x ∈ provs := by
  intro fuel
  induction fuel with
  | zero => intro w; exact ⟨[], by simp [fillLoop], by simp⟩
  | succ f ih =>
    intro w
    simp only [fillLoop]
    by_cases h : w.length < n
    · rw [if_pos h]
      obtain ⟨e1, he1, hm1⟩ := fillPass_eq_append n provs w
      obtain ⟨e2, he2, hm2⟩ := ih (fillPass n provs w)
      refine ⟨e1 ++ e2, ?_, ?_⟩
      · rw [he2, he1, List.append_assoc]
      · intro x hx
        rcases List.mem_append.mp hx with hx | hx
        · exact hm1 x hx
        · exact hm2 x hx
    · rw [if_neg h]
      exact ⟨[], by simp, by simp⟩

theorem fillLoop_length (n : Nat) (provs : List String) (hp : provs ≠ []) :
    ∀ (fuel : Nat) (w : List String), w.length ≤ n → n ≤ w.length + fuel →
      (fillLoop fuel n provs w).length = n := by
  intro fuel
  induction fuel with
  | zero =>
    intro w h1 h2
    simp only [fillLoop]
    omega
  | succ f ih =>
    intro w h1 h2
    simp only [fillLoop]
    by_cases h : w.length < n
    · rw [if_pos h]
      have hpl : 1 ≤ provs.length := List.length_pos.mpr hp
      have hfp := fillPass_length n provs w h
      apply ih
      · rw [hfp]; omega
      · rw [hfp]; omega
    · rw [if_neg h]
      omega

theorem sum_map_add_distrib (l : List String) (f g : String → Nat) :
    (l.map (fun a => f a + g a)).sum = (l.map f).sum + (l.map g).sum := by
  induction l with
  | nil => simp
  | cons a l ih =>
    simp only [List.map_cons, List.sum_cons, ih]
    omega

theorem sum_map_indicator_zero (keys : List String) (x : String)
    (hx : x ∉ keys) :
    (keys.map (fun p => if x = p then 1 else 0)).sum = 0 := by
  induction keys with
  | nil => simp
  | cons q rest ih =>
    simp only [List.map_cons, List.sum_cons]
    have hq : x ≠ q := fun h => hx (by simp [h])
    have hr : x ∉ rest := fun h => hx (by simp [h])
    simp [hq, ih hr]

theorem sum_map_indicator_one (keys : List String) (x : String)
    (hnd : keys.Nodup) (hx : x ∈ keys) :
    (keys.map (fun p => if x = p then 1 else 0)).sum = 1 := by
  induction keys with
  | nil => simp at hx
  | cons q rest ih =>
    simp only [List.map_cons, List.sum_cons]
    rcases List.nodup_cons.mp hnd with ⟨hq, hnd2⟩
    by_cases hxq : x = q
    · subst hxq
      simp [sum_map_indicator_zero rest x hq]
    · have hxr : x ∈ rest := by
        rcases List.mem_cons.mp hx with h | h
        · exact absurd h hxq
        · exact h
      simp [hxq, ih hnd2 hxr]

theorem sum_counts_of_mem (keys : List String) (hnd : keys.Nodup) :
    ∀ (l : List String), (∀ x ∈ l, x ∈ keys) →
      (keys.map (fun p => l.count p)).sum = l.length := by
  intro l
  induction l with
  | nil => intro _; simp
  | cons x l ih =>
    intro hsub
    have hx : x ∈ keys := hsub x (by simp)
    have hl : ∀ y ∈ l, y ∈ keys := fun y hy => hsub y (by simp [hy])
    have hcount : ∀ p : String,
        (x :: l).count p = l.count p + if x = p then 1 else 0 := by
      intro p
      rw [List.count_cons]
      by_cases hxp : x = p <;> simp [hxp]
    calc (keys.map (fun p => (x :: l).count p)).sum
        = (keys.map (fun p => l.count p + if x = p then 1 else 0)).sum := by
          exact congrArg _ (List.map_congr_left (fun p _ => hcount p))
      _ = (keys.map (fun p => l.count p)).sum +
          (keys.map (fun p => if x = p then 1 else 0)).sum :=
          sum_map_add_distrib keys _ _
      _ = l.length + 1 := by
          rw [ih hl, sum_map_indicator_one keys x hnd hx]
      _ = (x :: l).length := by simp

/-- C2: for every device count N and every percentage mapping summing to
100 (with distinct category keys), any shuffle of the AssignProviders
output is a sequence of exactly N assignments in which each category
appears at least floor(pct·N/100) times, every assignment's key is a key
of the mapping, and the per-category counts sum to exactly N. -/
theorem assignProviders_distribution (n : Nat) (dist : List (String × Nat))
    (out : List String)
    (hsum : (dist.map Prod.snd).sum = 100)
    (hnd : (dist.map Prod.fst).Nodup)
    (hout : out.Perm (assignProvidersCore n dist)) :
    out.length = n ∧
    (∀ e ∈ dist, e.2 * n / 100 ≤ out.count e.1) ∧
    (∀ s ∈ out, s ∈ dist.map Prod.fst) ∧
    (dist.map (fun e => out.count e.1)).sum = n := by
  have hne : dist ≠ [] := by
    intro h
    subst h
    simp at hsum
  have hkeys : dist.map Prod.fst ≠ [] := by
    intro h
    exact hne (List.map_eq_nil_iff.mp h)
  have hwle : (assignWeighted n dist).length ≤ n :=
    assignWeighted_length_le n dist hsum
  have hfl : (fillLoop n n (dist.map Prod.fst)
      (assignWeighted n dist)).length = n :=
    fillLoop_length n _ hkeys n _ hwle (by omega)
  have hcore : assignProvidersCore n dist =
      fillLoop n n (dist.map Prod.fst) (assignWeighted n dist) := by
    unfold assignProvidersCore
    exact List.take_of_length_le (le_of_eq hfl)
  obtain ⟨ext, hext, hextmem⟩ :=
    fillLoop_eq_append n (dist.map Prod.fst) n (assignWeighted n dist)
  have hcorelen : (assignProvidersCore n dist).length = n := by
    rw [hcore, hfl]
  have hmemcore : ∀ s ∈ assignProvidersCore n dist, s ∈ dist.map Prod.fst := by
    intro s hs
    rw [hcore, hext] at hs
    rcases List.mem_append.mp hs with hs | hs
    · exact mem_assignWeighted n dist s hs
    · exact hextmem s hs
  refine ⟨?_, ?_, ?_, ?_⟩
  · rw [hout.length_eq, hcorelen]
  · intro e he
    rw [hout.count_eq e.1, hcore, hext, List.count_append]
    have hcw := count_assignWeighted n dist e.1 e.2 hnd (by simpa using he)
    omega
  · intro s hs
    exact hmemcore s (hout.mem_iff.mp hs)
  · have h4 : ((dist.map Prod.fst).map (fun p => out.count p)).sum =
        out.length := by
      refine sum_counts_of_mem _ hnd out ?_
      intro x hx
      exact hmemcore x (hout.mem_iff.mp hx)
    rw [List.map_map] at h4
    have hcomp : dist.map (fun e => out.count e.1) =
        dist.map ((fun p => out.count p) ∘ Prod.fst) := rfl
    rw [hcomp, h4, hout.length_eq, hcorelen]

/-- C2 witness: N = 4 devices over a 50/50 two-category mapping. -/
theorem assignProviders_distribution_witness :
    (assignProvidersCore 4 [("mta", 50), ("cta", 50)]).length = 4 ∧
    (∀ e ∈ ([("mta", 50), ("cta", 50)] : List (String × Nat)),
      e.2 * 4 / 100 ≤
        (assignProvidersCore 4 [("mta", 50), ("cta", 50)]).count e.1) ∧
    (∀ s ∈ assignProvidersCore 4 [("mta", 50), ("cta", 50)],
      s ∈ ([("mta", 50), ("cta", 50)] : List (String × Nat)).map Prod.fst) ∧
    (([("mta", 50), ("cta", 50)] : List (String × Nat)).map
      (fun e =>
        (assignProvidersCore 4 [("mta", 50), ("cta", 50)]).count e.1)).sum =
      4 :=
  assignProviders_distribution 4 [("mta", 50), ("cta", 50)] _
    (by decide) (by decide) (List.Perm.refl _)

/-- C9 counterexample: the same percentage map handed to AssignProviders
in the two iteration orders Go may use yields different per-category
counts — with N = 3 and A,B at 50 each, the first map order gives A two
slots, the second gives A one — so two runs on the same inputs need not
produce the same counts; the remainder filler's iteration order is not
stable. -/
theorem assignProviders_order_dependent :
    List.Perm [("A", (50 : Nat)), ("B", 50)] [("B", 50), ("A", 50)] ∧
    (assignProvidersCore 3 [("A", 50), ("B", 50)]).count "A" = 2 ∧
    (assignProvidersCore 3 [("B", 50), ("A", 50)]).count "A" = 1 :=
  ⟨List.Perm.swap _ _ _, by decide, by decide⟩

/-- C9 amended: two runs of AssignProviders on the same inputs produce
the same per-category counts whenever every category's pct·N is a
multiple of 100, i.e. when integer rounding leaves no remainder to fill;
with a remainder the filler walks the map in Go's unstable iteration
order and the counts may differ between runs (only the total N, the
floor lower bounds and key membership are run-independent, as C2
proves for every order). -/
theorem assignProviders_counts_same_map_no_remainder (n : Nat)
    (d1 d2 : List (String × Nat)) (p : String)
    (hsum : (d1.map Prod.snd).sum = 100)
    (hdvd : ∀ e ∈ d1, 100 ∣ e.2 * n)
    (hperm : d1.Perm d2) :
    (assignProvidersCore n d1).count p =
      (assignProvidersCore n d2).count p := by
  have hsum2 : (d2.map Prod.snd).sum = 100 := by
    have h := (hperm.map Prod.snd).sum_eq
    rw [← h]
    exact hsum
  have hdvd2 : ∀ e ∈ d2, 100 ∣ e.2 * n :=
    fun e he => hdvd e (hperm.mem_iff.mpr he)
  have hlen : ∀ (d : List (String × Nat)), (d.map Prod.snd).sum = 100 →
      (∀ e ∈ d, 100 ∣ e.2 * n) → (assignWeighted n d).length = n := by
    intro d hs hd
    have hall : ∀ a ∈ d.map (fun e => e.2 * n), 100 ∣ a := by
      intro a ha
      obtain ⟨e, he, rfl⟩ := List.mem_map.mp ha
      exact hd e he
    rw [length_assignWeighted, sum_map_div_eq _ 100 hall, sum_map_mul_const,
      hs]
    omega
  have hcore : ∀ (d : List (String × Nat)),
      (assignWeighted n d).length = n →
      assignProvidersCore n d = assignWeighted n d := by
    intro d hl
    unfold assignProvidersCore
    have hflp : fillLoop n n (d.map Prod.fst) (assignWeighted n d) =
        assignWeighted n d := by
      cases n with
      | zero => rfl
      | succ m =>
        simp only [fillLoop]
        rw [if_neg (by omega)]
    rw [hflp]
    exact List.take_of_length_le (le_of_eq hl)
  have hw : (assignWeighted n d1).Perm (assignWeighted n d2) := by
    unfold assignWeighted
    exact List.Perm.flatMap_right _ hperm
  rw [hcore d1 (hlen d1 hsum hdvd), hcore d2 (hlen d2 hsum2 hdvd2)]
  exact hw.count_eq p

/-- C9 amended witness: with N = 4 and a 50/50 map there is no rounding
remainder and both iteration orders give the same count. -/
theorem assignProviders_counts_same_map_no_remainder_witness :
    (assignProvidersCore 4 [("mta", 50), ("cta", 50)]).count "mta" =
      (assignProvidersCore 4 [("cta", 50), ("mta", 50)]).count "mta" :=
  assignProviders_counts_same_map_no_remainder 4
    [("mta", 50), ("cta", 50)] [("cta", 50), ("mta", 50)] "mta"
    (by decide) (by decide) (List.Perm.swap _ _ _)

/-! ### Device lifecycle: the three terminal paths of the step loop -/

theorem active_not_mem_stepEnterState (i : Nat) :
    DState.active ∉ (stepEnterState i).toList := by
  unfold stepEnterState
  split_ifs <;> decide

theorem runLoop_fail_aux (stepRes : Nat → Option String) (cancelAt : Nat)
    (lf mc : Bool) (msg : String) :
    ∀ (n i : Nat) (acc : RunAcc), i + n < 8 → i + n < cancelAt →
      (∀ j, i ≤ j → j < i + n → stepRes j = none) →
      stepRes (i + n) = some msg →
      ∃ vs,
        (runLoop stepRes cancelAt lf mc i acc).final = DState.error ∧
        (runLoop stepRes cancelAt lf mc i acc).errorMsg =
          some ((stepNames.getD (i + n) "") ++ ": " ++ msg) ∧
        (runLoop stepRes cancelAt lf mc i acc).events =
          acc.events ++ [EventType.eventError] ∧
        (runLoop stepRes cancelAt lf mc i acc).visited =
          acc.visited ++ vs ∧ DState.active ∉ vs ∧
        (runLoop stepRes cancelAt lf mc i acc).stepsStarted =
          acc.stepsStarted + n + 1 := by
  intro n
  induction n with
  | zero =>
    intro i acc h8 hc _ hfail
    have h1 : i < 8 := by omega
    have h2 : ¬ cancelAt ≤ i := by omega
    rw [runLoop]
    simp only [Nat.add_zero] at hfail
    rw [dif_pos h1, if_neg h2, hfail]
    refine ⟨(stepEnterState i).toList ++ [DState.error], ?_, ?_, ?_, ?_, ?_, ?_⟩ <;>
      simp [failResult, stepState, active_not_mem_stepEnterState i]
  | succ n ih =>
    intro i acc h8 hc hpre hfail
    have h1 : i < 8 := by omega
    have h2 : ¬ cancelAt ≤ i := by omega
    have h0 : stepRes i = none := hpre i le_rfl (by omega)
    rw [runLoop, dif_pos h1, if_neg h2, h0]
    have harr : i + 1 + n = i + (n + 1) := by omega
    obtain ⟨vs, hfin, herr, hev, hvis, hact, hsteps⟩ :=
      ih (i + 1) (stepState acc i) (by omega) (by omega)
        (fun j hj1 hj2 => hpre j (by omega) (by omega))
        (by rw [harr]; exact hfail)
    refine ⟨(stepEnterState i).toList ++ vs, hfin, ?_, ?_, ?_, ?_, ?_⟩
    · rw [herr, harr]
    · rw [hev]; simp [stepState]
    · rw [hvis]; simp [stepState]
    · simp only [List.mem_append]
      rintro (h | h)
      · exact active_not_mem_stepEnterState i h
      · exact hact h
    · rw [hsteps]; simp [stepState]; omega

theorem runLoop_cancel_aux (stepRes : Nat → Option String) (cancelAt : Nat)
    (lf mc : Bool) :
    ∀ (n i : Nat) (acc : RunAcc), i + n < 8 → cancelAt = i + n →
      (∀ j, i ≤ j → j < i + n → stepRes j = none) →
      (runLoop stepRes cancelAt lf mc i acc).final = DState.done ∧
      (runLoop stepRes cancelAt lf mc i acc).errorMsg = none ∧
      (runLoop stepRes cancelAt lf mc i acc).events = acc.events ∧
      (runLoop stepRes cancelAt lf mc i acc).logoutInvoked = false ∧
      (runLoop stepRes cancelAt lf mc i acc).disconnectInvoked = false ∧
      (runLoop stepRes cancelAt lf mc i acc).offlinePublished = false ∧
      (runLoop stepRes cancelAt lf mc i acc).stepsStarted =
        acc.stepsStarted + n := by
  intro n
  induction n with
  | zero =>
    intro i acc h8 hc _
    have h1 : i < 8 := by omega
    have h2 : cancelAt ≤ i := by omega
    rw [runLoop, dif_pos h1, if_pos h2]
    simp [cancelResult]
  | succ n ih =>
    intro i acc h8 hc hpre
    have h1 : i < 8 := by omega
    have h2 : ¬ cancelAt ≤ i := by omega
    have h0 : stepRes i = none := hpre i le_rfl (by omega)
    rw [runLoop, dif_pos h1, if_neg h2, h0]
    obtain ⟨hfin, herr, hev, hlo, hdc, hop, hsteps⟩ :=
      ih (i + 1) (stepState acc i) (by omega) (by omega)
        (fun j hj1 hj2 => hpre j (by omega) (by omega))
    refine ⟨hfin, herr, ?_, hlo, hdc, hop, ?_⟩
    · rw [hev]; simp [stepState]
    · rw [hsteps]; simp [stepState]; omega

theorem runLoop_success_aux (stepRes : Nat → Option String) (cancelAt : Nat)
    (lf mc : Bool) :
    ∀ (n i : Nat) (acc : RunAcc), i + n = 8 → 8 ≤ cancelAt →
      (∀ j, i ≤ j → j < 8 → stepRes j = none) →
      (runLoop stepRes cancelAt lf mc i acc).final = DState.done ∧
      (runLoop stepRes cancelAt lf mc i acc).errorMsg = none ∧
      (runLoop stepRes cancelAt lf mc i acc).events =
        acc.events ++ [EventType.eventActive, EventType.eventDone] ∧
      (runLoop stepRes cancelAt lf mc i acc).logoutInvoked = true ∧
      (runLoop stepRes cancelAt lf mc i acc).logoutFailed = lf ∧
      (runLoop stepRes cancelAt lf mc i acc).disconnectInvoked = true ∧
      (runLoop stepRes cancelAt lf mc i acc).offlinePublished = mc ∧
      (runLoop stepRes cancelAt lf mc i acc).stepsStarted =
        acc.stepsStarted + n := by
  intro n
  induction n with
  | zero =>
    intro i acc h8 _ _
    have h1 : ¬ i < 8 := by omega
    rw [runLoop, dif_neg h1]
    simp [activeResult]
  | succ n ih =>
    intro i acc h8 hc hpre
    have h1 : i < 8 := by omega
    have h2 : ¬ cancelAt ≤ i := by omega
    have h0 : stepRes i = none := hpre i le_rfl (by omega)
    rw [runLoop, dif_pos h1, if_neg h2, h0]
    obtain ⟨hfin, herr, hev, hlo, hlf, hdc, hop, hsteps⟩ :=
      ih (i + 1) (stepState acc i) (by omega) hc
        (fun j hj1 hj2 => hpre j (by omega) hj2)
    refine ⟨hfin, herr, ?_, hlo, hlf, hdc, hop, ?_⟩
    · rw [hev]; simp [stepState]
    · rw [hsteps]; simp [stepState]; omega

/-- C1: for every device whose step i fails while all earlier steps
succeeded and cancellation has not been observed, Run records the error
text "step-name: err", sets the device state to Error, emits exactly one
became-error event on the channel, invokes no step beyond i, and the
device never reaches state Active. -/
theorem run_step_failure (stepRes : Nat → Option String) (cancelAt i : Nat)
    (msg : String) (lf mc : Bool) (h8 : i < 8) (hc : i < cancelAt)
    (hpre : ∀ j, j < i → stepRes j = none) (hfail : stepRes i = some msg) :
    (run stepRes cancelAt lf mc).final = DState.error ∧
    (run stepRes cancelAt lf mc).errorMsg =
      some ((stepNames.getD i "") ++ ": " ++ msg) ∧
    (run stepRes cancelAt lf mc).events = [EventType.eventError] ∧
    (run stepRes cancelAt lf mc).stepsStarted = i + 1 ∧
    DState.active ∉ (run stepRes cancelAt lf mc).visited := by
  obtain ⟨vs, hfin, herr, hev, hvis, hact, hsteps⟩ :=
    runLoop_fail_aux stepRes cancelAt lf mc msg i 0 ⟨[], [.init], 0⟩
      (by omega) (by omega) (fun j hj1 hj2 => hpre j (by omega))
      (by simpa using hfail)
  unfold run
  refine ⟨hfin, ?_, ?_, ?_, ?_⟩
  · rw [herr]; simp
  · rw [hev]; rfl
  · rw [hsteps]; simp
  · rw [hvis]
    simp only [List.mem_append]
    rintro (h | h)
    · simp at h
    · exact hact h

/-- C1 witness: a device whose third step (login) fails with "boom". -/
theorem run_step_failure_witness :
    (run (fun j => if j = 2 then some "boom" else none) 99 false true).final =
      DState.error ∧
    (run (fun j => if j = 2 then some "boom" else none) 99 false true).errorMsg =
      some "login: boom" ∧
    (run (fun j => if j = 2 then some "boom" else none) 99 false true).events =
      [EventType.eventError] ∧
    (run (fun j => if j = 2 then some "boom" else none) 99 false true).stepsStarted = 3 ∧
    DState.active ∉
      (run (fun j => if j = 2 then some "boom" else none) 99 false true).visited := by
  have h := run_step_failure (fun j => if j = 2 then some "boom" else none)
    99 2 "boom" false true (by omega) (by omega)
    (by intro j hj; interval_cases j <;> rfl) (by rfl)
  exact ⟨h.1, h.2.1, h.2.2.1, h.2.2.2.1, h.2.2.2.2⟩

/-- C6: for every device that is Active when the cancellation signal
fires (all eight steps succeeded), Run performs the cleanup sequence —
the backend logout is invoked with its error discarded, the broker
disconnect is invoked and publishes the final "offline" presence message
whenever the client is still connected — and then transitions to Done
and emits one became-done event, for every logout outcome and every
connection state: cleanup failure never prevents reaching Done. -/
theorem run_cleanup_on_cancel_while_active (stepRes : Nat → Option String)
    (cancelAt : Nat) (lf mc : Bool)
    (hsucc : ∀ j, j < 8 → stepRes j = none) (hc : 8 ≤ cancelAt) :
    (run stepRes cancelAt lf mc).final = DState.done ∧
    (run stepRes cancelAt lf mc).events =
      [EventType.eventActive, EventType.eventDone] ∧
    (run stepRes cancelAt lf mc).logoutInvoked = true ∧
    (run stepRes cancelAt lf mc).logoutFailed = lf ∧
    (run stepRes cancelAt lf mc).disconnectInvoked = true ∧
    (run stepRes cancelAt lf mc).offlinePublished = mc ∧
    (run stepRes cancelAt lf mc).errorMsg = none := by
  obtain ⟨hfin, herr, hev, hlo, hlf, hdc, hop, _⟩ :=
    runLoop_success_aux stepRes cancelAt lf mc 8 0 ⟨[], [.init], 0⟩
      rfl hc (fun j hj1 hj2 => hsucc j hj2)
  unfold run
  exact ⟨hfin, by rw [hev]; rfl, hlo, hlf, hdc, hop, herr⟩

/-- C6 witness: a device whose steps all succeed, cancelled while Active,
with a failing logout and a disconnected broker client, still reaches
Done and emits became-done. -/
theorem run_cleanup_on_cancel_while_active_witness :
    (run (fun _ => none) 8 true false).final = DState.done ∧
    (run (fun _ => none) 8 true false).events =
      [EventType.eventActive, EventType.eventDone] ∧
    (run (fun _ => none) 8 true false).logoutInvoked = true ∧
    (run (fun _ => none) 8 true false).logoutFailed = true ∧
    (run (fun _ => none) 8 true false).disconnectInvoked = true := by
  have h := run_cleanup_on_cancel_while_active (fun _ => none) 8 true false
    (fun j _ => rfl) le_rfl
  exact ⟨h.1, h.2.1, h.2.2.1, h.2.2.2.1, h.2.2.2.2.1⟩

/-- C10: for every device whose cancellation signal is observed after at
least one step completed but before all eight completed, Run transitions
directly to Done, emits no event at all on the channel (in particular no
became-done), and performs no cleanup — neither logout nor broker
disconnect is invoked — even though `cancelAt` steps already ran. -/
theorem run_cancelled_mid (stepRes : Nat → Option String) (cancelAt : Nat)
    (lf mc : Bool) (h1 : 1 ≤ cancelAt) (h8 : cancelAt < 8)
    (hpre : ∀ j, j < cancelAt → stepRes j = none) :
    (run stepRes cancelAt lf mc).final = DState.done ∧
    (run stepRes cancelAt lf mc).events = [] ∧
    (run stepRes cancelAt lf mc).errorMsg = none ∧
    (run stepRes cancelAt lf mc).logoutInvoked = false ∧
    (run stepRes cancelAt lf mc).disconnectInvoked = false ∧
    (run stepRes cancelAt lf mc).offlinePublished = false ∧
    (run stepRes cancelAt lf mc).stepsStarted = cancelAt := by
  obtain ⟨hfin, herr, hev, hlo, hdc, hop, hsteps⟩ :=
    runLoop_cancel_aux stepRes cancelAt lf mc cancelAt 0 ⟨[], [.init], 0⟩
      (by omega) (by omega) (fun j hj1 hj2 => hpre j (by omega))
  unfold run
  exact ⟨hfin, by rw [hev], herr, hlo, hdc, hop, by rw [hsteps]; simp⟩

/-! ### Rolling-rate window -/

theorem foldl_windowStep_length (ds : List Int) :
    ∀ (w : List Int) (idx : Nat),
      (ds.foldl windowStep (w, idx)).1.length = w.length := by
  induction ds with
  | nil => intro w idx; rfl
  | cons d rest ih =>
    intro w idx
    rw [List.foldl_cons]
    have h := ih (w.set (idx % 5) d) (idx + 1)
    simpa [windowStep, List.length_set] using h

theorem exists_five_of_length (l : List Int) (h : l.length = 5) :
    ∃ a b c d e, l = [a, b, c, d, e] := by
  match l, h with
  | [a, b, c, d, e], _ => exact ⟨a, b, c, d, e, rfl⟩

theorem foldl_windowStep_five (a b c d e : Int) (w : List Int) (idx : Nat)
    (hw : w.length = 5) :
    (([a, b, c, d, e]).foldl windowStep (w, idx)).1.sum = a + b + c + d + e := by
  obtain ⟨w0, w1, w2, w3, w4, rfl⟩ := exists_five_of_length w hw
  simp only [List.foldl_cons, List.foldl_nil, windowStep]
  have h1 : (idx + 1) % 5 = (idx % 5 + 1) % 5 := by omega
  have h2 : (idx + 1 + 1) % 5 = (idx % 5 + 2) % 5 := by omega
  have h3 : (idx + 1 + 1 + 1) % 5 = (idx % 5 + 3) % 5 := by omega
  have h4 : (idx + 1 + 1 + 1 + 1) % 5 = (idx % 5 + 4) % 5 := by omega
  rw [h1, h2, h3, h4]
  have hr : idx % 5 < 5 := Nat.mod_lt _ (by norm_num)
  set r := idx % 5 with hrdef
  interval_cases r <;> simp [List.set] <;> ring

theorem windowAfter_sum_of_le_five (ds : List Int) (h : ds.length ≤ 5) :
    (windowAfter ds).1.sum = ds.sum := by
  rcases ds with _ | ⟨a, _ | ⟨b, _ | ⟨c, _ | ⟨d, _ | ⟨e, _ | ⟨f, tl⟩⟩⟩⟩⟩⟩
  · simp [windowAfter]
  · simp [windowAfter, windowStep, List.replicate]
  · simp [windowAfter, windowStep, List.replicate, List.set]
  · simp [windowAfter, windowStep, List.replicate, List.set]
  · simp [windowAfter, windowStep, List.replicate, List.set]
  · simp [windowAfter, windowStep, List.replicate, List.set]
  · simp at h

theorem windowAfter_sum_of_gt_five (ds : List Int) (h : 5 < ds.length) :
    (windowAfter ds).1.sum = (ds.drop (ds.length - 5)).sum := by
  have hdlen : (ds.drop (ds.length - 5)).length = 5 := by
    rw [List.length_drop]; omega
  obtain ⟨a, b, c, d, e, hd⟩ := exists_five_of_length _ hdlen
  have hsplit : ds.take (ds.length - 5) ++ ds.drop (ds.length - 5) = ds :=
    List.take_append_drop _ _
  have hmlen :
      ((ds.take (ds.length - 5)).foldl windowStep
        (List.replicate 5 0, 0)).1.length = 5 := by
    rw [foldl_windowStep_length]; simp
  calc (windowAfter ds).1.sum
      = ((ds.take (ds.length - 5) ++ ds.drop (ds.length - 5)).foldl
          windowStep (List.replicate 5 0, 0)).1.sum := by
        rw [hsplit, windowAfter]
    _ = ((ds.drop (ds.length - 5)).foldl windowStep
          ((ds.take (ds.length - 5)).foldl windowStep
            (List.replicate 5 0, 0))).1.sum := by
        rw [List.foldl_append]
    _ = a + b + c + d + e := by
        rw [hd, ← Prod.mk.eta
          (p := (ds.take (ds.length - 5)).foldl windowStep
            (List.replicate 5 0, 0))]
        exact foldl_windowStep_five a b c d e _ _ hmlen
    _ = (ds.drop (ds.length - 5)).sum := by rw [hd]; simp; ring

/-- C4: after k ticks with per-tick message deltas d1..dk, the reported
rolling rate equals sum(d1..dk)/5 when k ≤ 5, and equals the sum of only
the most recent 5 deltas divided by 5 when k > 5; the circular buffer
capacity stays fixed at 5. -/
theorem rolling_rate_window (deltas : List Int) :
    (windowAfter deltas).1.length = 5 ∧
    (deltas.length ≤ 5 → msgsPerSec deltas = (deltas.sum : ℚ) / 5) ∧
    (5 < deltas.length →
      msgsPerSec deltas =
        ((deltas.drop (deltas.length - 5)).sum : ℚ) / 5) := by
  refine ⟨?_, ?_, ?_⟩
  · rw [windowAfter, foldl_windowStep_length]; simp
  · intro h
    unfold msgsPerSec
    rw [windowAfter_sum_of_le_five deltas h]
  · intro h
    unfold msgsPerSec
    rw [windowAfter_sum_of_gt_five deltas h]

/-- C4 witness: after 7 ticks with deltas 1..7 only the most recent five
deltas contribute and the buffer still has 5 slots. -/
theorem rolling_rate_window_witness :
    (windowAfter [1, 2, 3, 4, 5, 6, 7]).1.length = 5 ∧
    msgsPerSec [1, 2, 3, 4, 5, 6, 7] = (25 : ℚ) / 5 := by
  have h := rolling_rate_window [1, 2, 3, 4, 5, 6, 7]
  refine ⟨h.1, ?_⟩
  rw [h.2.2 (by norm_num)]
  norm_num

/-- C10 witness: a device cancelled at the check before step four has run
three steps, reaches Done, and emits nothing. -/
theorem run_cancelled_mid_witness :
    (run (fun _ => none) 3 false true).final = DState.done ∧
    (run (fun _ => none) 3 false true).events = [] ∧
    (run (fun _ => none) 3 false true).logoutInvoked = false ∧
    (run (fun _ => none) 3 false true).disconnectInvoked = false ∧
    (run (fun _ => none) 3 false true).stepsStarted = 3 := by
  have h := run_cancelled_mid (fun _ => none) 3 false true (by omega)
    (by omega) (fun j _ => rfl)
  exact ⟨h.1, h.2.1, h.2.2.2.1, h.2.2.2.2.1, h.2.2.2.2.2.2⟩

end LoadTest
